import Mathlib

/-!
Verification of the ingestion watcher pipeline of `src/kc_electron/src/electron.ts`
(the autoscan subscription, the chokidar `add` handler, the delivery interval)
against its natural-language specification.

The TypeScript is shallowly embedded: the external collaborators
(`fs`, `mime-types`, `uuid`, `chokidar`, the settings service, the wall clock)
are supplied as an explicit environment, JavaScript values that can be a string
or a non-string falsy value are modelled by small inductive types, and the
filesystem side effects of one handler run are returned as an explicit list of
operations.  `fs.statSync` / `fs.copyFileSync` throw on failure; a thrown
exception that the handler does not catch is modelled by `Except.error`
escaping the handler.
-/

set_option maxRecDepth 4000

namespace Ingest

/-- A JavaScript value that is either a string or `undefined`
(the possible values of the `fileExtension` variable after the fallback
assignment `path.extname(filePath).split('.')[1]`). -/
inductive JsExtVal where
  | str (s : String)
  | undefined
deriving DecidableEq

/-- Template-literal rendering: `` `.${fileExtension}` `` stringifies
`undefined` to the text "undefined". -/
def jsExtTemplate : JsExtVal → String
  | .str s => s
  | .undefined => "undefined"

/-- A JavaScript value stored in a FileModel timestamp field: either an
`fs.Stats` `Date` object (carried here as its epoch-milliseconds instant) or a
string such as the result of calling `Date()` without `new`. -/
inductive JsTimeVal where
  | dateObj (ms : Nat)
  | str (s : String)
deriving DecidableEq

/-- Whether a timestamp field holds a JavaScript string. -/
def JsTimeVal.isString : JsTimeVal → Bool
  | .dateObj _ => false
  | .str _ => true

/-- A JavaScript value stored in the FileModel `type` field: `mime.lookup`
returns either a MIME string or the boolean `false`; `undefined` is included so
that the specified shape `string | undefined` can be stated about this field. -/
inductive JsTypeVal where
  | str (s : String)
  | boolFalse
  | undefined
deriving DecidableEq

/-- Path separators recognised by the ignore pattern `[\/\\]`. -/
def isSep (c : Char) : Bool := c == '/' || c == '\\'

/-- In the chokidar option `ignored: /(^|[\/\\])\../` the final `.` matches any
character except a JavaScript line terminator. -/
def jsDotMatches (c : Char) : Bool :=
  c != '\n' && c != '\r' && c.val != 0x2028 && c.val != 0x2029

/-- Scan for a match of `(^|[\/\\])\..` : the boolean argument records whether
the current position is the start of the string or preceded by a separator. -/
def ignoredAux : Bool → List Char → Bool
  | _, [] => false
  | atB, c :: rest =>
      (atB && c == '.' && (match rest with
        | [] => false
        | d :: _ => jsDotMatches d))
      || ignoredAux (isSep c) rest

/-- The chokidar `ignored` test: does `/(^|[\/\\])\../` match the path? -/
def ignoredMatch (p : String) : Bool := ignoredAux true p.data

/-- The final path component: the longest separator-free suffix.
This agrees with Node `path.basename` on every path a watcher delivers
(watcher file paths never end in a separator). -/
def basenameList (l : List Char) : List Char :=
  ((l.reverse).takeWhile (fun c => !isSep c)).reverse

/-- Node `path.basename` on watcher file paths. -/
def jsBasename (p : String) : String := String.mk (basenameList p.data)

/-- The suffix of a component starting at its last `.` (empty if it has none);
used below for every dot at index ≥ 1 of the base name. -/
def extSuffix : List Char → List Char
  | [] => []
  | c :: rest =>
      let e := extSuffix rest
      if e.isEmpty then (if c == '.' then c :: rest else []) else e

/-- Node `path.extname` on the base name: the suffix from the last dot, where a
dot at index 0 does not count and the component ".." has no extension. -/
def extnameList : List Char → List Char
  | [] => []
  | c :: rest => if c :: rest == ['.', '.'] then [] else extSuffix rest

/-- Node `path.extname`. -/
def jsExtname (p : String) : String := String.mk (extnameList (basenameList p.data))

/-- JavaScript `String.prototype.split('.')`: the list of dot-separated chunks;
on the empty string it returns `[""]`. -/
def jsSplitDot : List Char → List (List Char)
  | [] => [[]]
  | c :: rest =>
      let r := jsSplitDot rest
      if c == '.' then [] :: r
      else
        match r with
        | [] => [[c]]
        | h :: t => (c :: h) :: t

/-- The `{value: string}` identifier wrapper (UuidModel). -/
structure UuidModel where
  value : String
deriving DecidableEq

/-- The object literal built by the `add` handler and sent to the UI
(`FileModel` of `file.model.ts`; the runtime field values of the literal, which for
the timestamps and `type` are wider than the declared types). -/
structure FileModel where
  accessTime : JsTimeVal
  creationTime : JsTimeVal
  modificationTime : JsTimeVal
  filename : String
  id : UuidModel
  path : String
  size : Nat
  type : JsTypeVal
deriving DecidableEq

/-- The result of a successful `fs.statSync`: size and the three `Date`
timestamps (epoch milliseconds). -/
structure FileStat where
  size : Nat
  atimeMs : Nat
  mtimeMs : Nat
  ctimeMs : Nat
deriving DecidableEq

/-- A filesystem side effect performed by the `add` handler. -/
inductive FsOp where
  | copy (src dst : String)
  | remove (p : String)
deriving DecidableEq

/-- The `{data: fileToPush}` payload of a successful envelope. -/
structure SuccessData where
  data : FileModel
deriving DecidableEq

/-- The response envelope `{error: undefined, success: {data: ...}}`
(`IpcMessage`): `none` models `undefined`. -/
structure IpcMessage where
  error : Option String
  success : Option SuccessData
deriving DecidableEq

/-- One emission of the ingest settings subscription. -/
structure IngestConfig where
  autoscan : Bool
  autoscanLocation : String
  preserveTimestamps : Bool
  interval : Nat
deriving DecidableEq

/-- The `ingest` member of the settings snapshot `appEnv` taken at startup by
`settingsService.getSettings()`. -/
structure AppEnvIngest where
  interval : Nat
deriving DecidableEq

/-- The startup settings snapshot `appEnv` (the parts this subsystem reads). -/
structure AppEnv where
  appPath : String
  ingest : AppEnvIngest
deriving DecidableEq

/-- The chokidar watcher handle as configured by the subscription:
its watch path and the `ignoreInitial` option (the `ignored` pattern is the
fixed `ignoredMatch` and `persistent` is always true). -/
structure WatcherHandle where
  watchPath : String
  ignoreInitial : Bool
deriving DecidableEq

/-- The module-level mutable state: `ingestWatcher`, `filesToPush`, and
`autoScanInterval` (recorded as the period of the armed timer, `none` when
cleared). -/
structure IngestState where
  ingestWatcher : Option WatcherHandle
  filesToPush : List FileModel
  autoScanInterval : Option Nat
deriving DecidableEq

/-- The external collaborators of one `add` handler run: `fs.statSync`
(throwing is `Except.error`), `mime.lookup` (returning `false` is `none`),
`mime.extension` on a string content type (returning `false` is `none`),
whether `fs.copyFileSync` succeeds for a given source and destination, and the
wall-clock rendering produced by `Date()` during this run. -/
structure HandlerEnv where
  stat : String → Except String FileStat
  mimeLookup : String → Option String
  extOf : String → Option String
  copyOk : String → String → Bool
  nowStr : String

/-- The fresh-identifier supply standing for `uuid.v4()`: the n-th draw.  The
rendering is injective, standing for the vanishing collision probability of 122
random bits (spec: "generated fresh per file, never reused"). -/
def uuidRender (n : Nat) : String := String.mk (List.replicate (n + 1) 'u')

/-- The fallback `path.extname(filePath).split('.')[1]`: a JavaScript
out-of-range index yields `undefined`. -/
def fallbackExt (filePath : String) : JsExtVal :=
  match (jsSplitDot (jsExtname filePath).data).get? 1 with
  | some cs => .str (String.mk cs)
  | none => .undefined

/-- The value `mime.extension(mime.lookup(filePath))`: `none` models the
boolean `false` (which `mime.extension` also returns when handed `false`). -/
def mimeExtOf (env : HandlerEnv) (filePath : String) : Option String :=
  match env.mimeLookup filePath with
  | none => none
  | some ct => env.extOf ct

/-- The `fileExtension` variable: `mime.extension(mime.lookup(filePath))`,
replaced by the fallback when falsy (the guard is `if (!fileExtension)`, so the
boolean `false` and the empty string both take the fallback). -/
def computedExtension (env : HandlerEnv) (filePath : String) : JsExtVal :=
  match mimeExtOf env filePath with
  | none => fallbackExt filePath
  | some s => if s == "" then fallbackExt filePath else .str s

/-- Node `path.resolve(appPath, 'files', newId)` for an absolute `appPath` and
separator-free relative segments: joining with `/`. -/
def jsResolve (root seg1 seg2 : String) : String :=
  root ++ "/" ++ seg1 ++ "/" ++ seg2

/-- The destination path
`path.resolve(appEnv.appPath, 'files', newId) + `.${fileExtension}` `. -/
def destPath (env : HandlerEnv) (appPath newId filePath : String) : String :=
  jsResolve appPath "files" newId ++ "." ++ jsExtTemplate (computedExtension env filePath)

/-- The `fileModel` object literal built by the `add` handler, with the k-th
identifier draw.  `creationTime` takes `fileStat.ctime`; with
`preserveTimestamps` the three values are the `Date` objects from the stat,
otherwise the string `Date()`. -/
def mkRecord (env : HandlerEnv) (appPath : String) (preserveTimestamps : Bool)
    (k : Nat) (filePath : String) (fileStat : FileStat) : FileModel where
  accessTime := if preserveTimestamps then .dateObj fileStat.atimeMs else .str env.nowStr
  creationTime := if preserveTimestamps then .dateObj fileStat.ctimeMs else .str env.nowStr
  modificationTime := if preserveTimestamps then .dateObj fileStat.mtimeMs else .str env.nowStr
  filename := jsBasename filePath
  id := ⟨uuidRender k⟩
  path := destPath env appPath (uuidRender k) filePath
  size := fileStat.size
  type := match env.mimeLookup filePath with
          | some s => .str s
          | none => .boolFalse

/-- The chokidar `add` event handler (electron.ts lines 285-331) with the
identifier supply threaded through: stat the file, compute content type,
extension, fresh id and destination, copy, and build the record.  The result
pairs the advanced supply with either the record and the filesystem operations
performed, or the exception that escaped the handler (there is no try/catch in
the handler, so a `statSync` or `copyFileSync` throw propagates).  The
`if (!fileStat)` guard of the source is dead code: a successful `statSync`
always returns a truthy Stats object, and a failed one throws.  The line
`fs.rmSync(filePath)` of the source is commented out, so no remove operation is
ever performed. -/
def onAdd (env : HandlerEnv) (appPath : String) (preserveTimestamps : Bool)
    (sup : Nat) (filePath : String) :
    Nat × Except String (FileModel × List FsOp) :=
  match env.stat filePath with
  | .error e => (sup, .error e)
  | .ok fileStat =>
      let newId := uuidRender sup
      let newFilePath := destPath env appPath newId filePath
      if env.copyOk filePath newFilePath then
        (sup + 1, .ok (mkRecord env appPath preserveTimestamps sup filePath fileStat,
                       [FsOp.copy filePath newFilePath]))
      else
        (sup + 1, .error "copyFileSync")

/-- The `add` events chokidar emits when binding with `ignoreInitial: false`:
one per file present, except those matched by the `ignored` pattern. -/
def watcherEvents (dirFiles : List String) : List String :=
  dirFiles.filter (fun f => !ignoredMatch f)

/-- Run the `add` handler over a list of event paths, threading the identifier
supply and pairing every event with its outcome. -/
def processAll (env : HandlerEnv) (appPath : String) (preserveTimestamps : Bool) :
    Nat → List String → Nat × List (String × Except String (FileModel × List FsOp))
  | sup, [] => (sup, [])
  | sup, f :: rest =>
      let step := onAdd env appPath preserveTimestamps sup f
      let next := processAll env appPath preserveTimestamps step.1 rest
      (next.1, (f, step.2) :: next.2)

/-- Whether one event outcome removed the file `q`. -/
def outcomeRemoves (q : String) : Except String (FileModel × List FsOp) → Bool
  | .error _ => false
  | .ok (_, ops) => ops.any (fun o => match o with
      | .remove r => r == q
      | .copy _ _ => false)

/-- The watched directory after the handler runs: files whose removal was
performed disappear (the copy destinations live under the application storage
root, outside the watched directory). -/
def dirAfter (dirFiles : List String)
    (results : List (String × Except String (FileModel × List FsOp))) : List String :=
  dirFiles.filter (fun q => !(results.any (fun pr => outcomeRemoves q pr.2)))

/-- The ingest settings subscription callback (electron.ts lines 247-358),
without the per-file handler: on a falsy emission or a disabled/empty
configuration, close the watcher and clear the timer (the queue is kept);
otherwise close and clear, reset the queue, rebind the watcher on the resolved
location with `ignoreInitial: false`, and arm the delivery timer — whose period
is `appEnv.ingest.interval`, read from the startup settings snapshot, not from
the emitted configuration.  (The `statSync`/`mkdirSync` directory-creation
recovery has no bearing on the state modelled here.) -/
def subscribe (appEnv : AppEnv) (ingest : Option IngestConfig)
    (st : IngestState) : IngestState :=
  match ingest with
  | none =>
      { st with ingestWatcher := none, autoScanInterval := none }
  | some cfg =>
      if cfg.autoscan = false ∨ cfg.autoscanLocation = "" then
        { st with ingestWatcher := none, autoScanInterval := none }
      else
        { ingestWatcher := some { watchPath := cfg.autoscanLocation, ignoreInitial := false }
          filesToPush := []
          autoScanInterval := some appEnv.ingest.interval }

/-- The envelope built per queued record:
`{error: undefined, success: {data: fileToPush}}`. -/
def wrapRecord (f : FileModel) : IpcMessage :=
  { error := none, success := some ⟨f⟩ }

/-- One delivery tick (the `setInterval` callback, electron.ts lines 335-357):
when the queue is non-empty and `ingest.autoscan` holds, wrap every queued
record and send the batch as one message; the queue is cleared only when the
send did not throw (`sendOk`).  Returns the batch handed to
`webContents.send` (if any) and the queue afterwards. -/
def tick (sendOk : Bool) (autoscan : Bool) (filesToPush : List FileModel) :
    Option (List IpcMessage) × List FileModel :=
  if 0 < filesToPush.length ∧ autoscan = true then
    let responses := filesToPush.map wrapRecord
    if sendOk then (some responses, []) else (none, filesToPush)
  else
    (none, filesToPush)

/-! Concrete environments used to evaluate the handler at explicit inputs. -/

/-- An environment in which every external call succeeds. -/
def envOk : HandlerEnv where
  stat := fun _ => .ok ⟨100, 11, 12, 13⟩
  mimeLookup := fun _ => some "text/plain"
  extOf := fun _ => some "txt"
  copyOk := fun _ _ => true
  nowStr := "Mon Jan 01 2024"

/-- An environment in which `fs.statSync` throws. -/
def envStatThrows : HandlerEnv where
  stat := fun _ => .error "ENOENT"
  mimeLookup := fun _ => some "text/plain"
  extOf := fun _ => some "txt"
  copyOk := fun _ _ => true
  nowStr := "Mon Jan 01 2024"

/-- An environment in which `fs.copyFileSync` throws. -/
def envCopyThrows : HandlerEnv where
  stat := fun _ => .ok ⟨100, 11, 12, 13⟩
  mimeLookup := fun _ => some "text/plain"
  extOf := fun _ => some "txt"
  copyOk := fun _ _ => false
  nowStr := "Mon Jan 01 2024"

/-- An environment in which the MIME lookup resolves nothing. -/
def envNoMime : HandlerEnv where
  stat := fun _ => .ok ⟨100, 11, 12, 13⟩
  mimeLookup := fun _ => none
  extOf := fun _ => none
  copyOk := fun _ _ => true
  nowStr := "Mon Jan 01 2024"

/-- A startup settings snapshot with a 1000 ms ingest interval. -/
def appEnvEx : AppEnv := ⟨"/app", ⟨1000⟩⟩

/-- An enabling configuration emission with a 2000 ms interval. -/
def cfgEx : IngestConfig := ⟨true, "/watch", false, 2000⟩

/-- The initial module state. -/
def st0 : IngestState := ⟨none, [], none⟩

/-- A sample queued record, for exercising the delivery tick. -/
def sampleRecord : FileModel :=
  ⟨.str "t", .str "t", .str "t", "a.txt", ⟨"u"⟩, "/app/files/u.txt", 100, .str "text/plain"⟩

/-- The shape `string | undefined` that the specification gives for the
`type` field of a delivered record. -/
def typeIsStringOrUndefined (t : JsTypeVal) : Prop :=
  t = JsTypeVal.undefined ∨ ∃ s, t = JsTypeVal.str s

/-! Helper lemmas. -/

theorem onAdd_sup_le (env : HandlerEnv) (a : String) (pres : Bool) (sup : Nat)
    (f : String) : sup ≤ (onAdd env a pres sup f).1 := by
  unfold onAdd
  cases env.stat f with
  | error e => simp
  | ok s =>
      simp only
      split <;> simp

theorem processAll_sup_le (env : HandlerEnv) (a : String) (pres : Bool) :
    ∀ (fs : List String) (sup : Nat), sup ≤ (processAll env a pres sup fs).1 := by
  intro fs
  induction fs with
  | nil => intro sup; simp [processAll]
  | cons f rest ih =>
      intro sup
      simp only [processAll]
      exact le_trans (onAdd_sup_le env a pres sup f) (ih _)

theorem onAdd_ok (env : HandlerEnv) (a : String) (pres : Bool) (sup : Nat)
    (f : String) (s' : Nat) (m : FileModel) (ops : List FsOp)
    (h : onAdd env a pres sup f = (s', Except.ok (m, ops))) :
    s' = sup + 1 ∧
    ∃ st, env.stat f = Except.ok st ∧
      env.copyOk f (destPath env a (uuidRender sup) f) = true ∧
      m = mkRecord env a pres sup f st ∧
      ops = [FsOp.copy f (destPath env a (uuidRender sup) f)] := by
  unfold onAdd at h
  cases hst : env.stat f with
  | error e => rw [hst] at h; simp at h
  | ok st =>
      rw [hst] at h
      simp only at h
      by_cases hc : env.copyOk f (destPath env a (uuidRender sup) f) = true
      · rw [if_pos hc] at h
        obtain ⟨h1, h2⟩ := Prod.mk.injEq .. ▸ h
        cases h
        exact ⟨rfl, st, rfl, hc, rfl, rfl⟩
      · rw [if_neg hc] at h
        simp at h

theorem onAdd_error_of_stat (env : HandlerEnv) (a : String) (pres : Bool)
    (sup : Nat) (f : String) (e : String) (h : env.stat f = Except.error e) :
    onAdd env a pres sup f = (sup, Except.error e) := by
  unfold onAdd
  rw [h]

theorem onAdd_no_remove (env : HandlerEnv) (a : String) (pres : Bool)
    (sup : Nat) (f q : String) :
    outcomeRemoves q (onAdd env a pres sup f).2 = false := by
  unfold onAdd
  cases env.stat f with
  | error e => simp [outcomeRemoves]
  | ok st =>
      simp only
      split <;> simp [outcomeRemoves, FsOp.copy.sizeOf_spec]

theorem processAll_mem_outcome (env : HandlerEnv) (a : String) (pres : Bool) :
    ∀ (fs : List String) (sup : Nat) (p : String)
      (r : Except String (FileModel × List FsOp)),
      (p, r) ∈ (processAll env a pres sup fs).2 →
      p ∈ fs ∧ ∃ s₀, r = (onAdd env a pres s₀ p).2 := by
  intro fs
  induction fs with
  | nil => intro sup p r h; simp [processAll] at h
  | cons f rest ih =>
      intro sup p r h
      simp only [processAll, List.mem_cons] at h
      rcases h with h | h
      · obtain ⟨h1, h2⟩ := Prod.mk.injEq .. ▸ h
        cases h
        exact ⟨List.mem_cons_self _ _, sup, rfl⟩
      · obtain ⟨hmem, hr⟩ := ih _ _ _ h
        exact ⟨List.mem_cons_of_mem _ hmem, hr⟩

theorem processAll_mem_ok (env : HandlerEnv) (a : String) (pres : Bool)
    (p : String) (st₀ : FileStat) (hstat : env.stat p = Except.ok st₀)
    (hcopy : ∀ d, env.copyOk p d = true) :
    ∀ (fs : List String) (sup : Nat), p ∈ fs →
      ∃ k, sup ≤ k ∧ k < (processAll env a pres sup fs).1 ∧
        (p, Except.ok (mkRecord env a pres k p st₀,
              [FsOp.copy p (destPath env a (uuidRender k) p)])) ∈
          (processAll env a pres sup fs).2 := by
  intro fs
  induction fs with
  | nil => intro sup h; simp at h
  | cons f rest ih =>
      intro sup hmem
      rcases List.mem_cons.mp hmem with hf | hrest
      · subst hf
        have hstep : onAdd env a pres sup p =
            (sup + 1, Except.ok (mkRecord env a pres sup p st₀,
              [FsOp.copy p (destPath env a (uuidRender sup) p)])) := by
          unfold onAdd
          rw [hstat]
          simp [hcopy]
        refine ⟨sup, le_refl sup, ?_, ?_⟩
        · simp only [processAll, hstep]
          exact lt_of_lt_of_le (Nat.lt_succ_self sup)
            (processAll_sup_le env a pres rest (sup + 1))
        · simp only [processAll, hstep]
          exact List.mem_cons_self _ _
      · obtain ⟨k, hk1, hk2, hk3⟩ := ih ((onAdd env a pres sup f).1) hrest
        refine ⟨k, le_trans (onAdd_sup_le env a pres sup f) hk1, ?_, ?_⟩
        · simpa only [processAll] using hk2
        · simp only [processAll]
          exact List.mem_cons_of_mem _ hk3

theorem dirAfter_processAll (env : HandlerEnv) (a : String) (pres : Bool)
    (dirFiles fs : List String) (sup : Nat) :
    dirAfter dirFiles (processAll env a pres sup fs).2 = dirFiles := by
  unfold dirAfter
  apply List.filter_eq_self.mpr
  intro q hq
  simp only [Bool.not_eq_true', List.any_eq_false]
  rintro ⟨p, r⟩ hpr
  obtain ⟨-, s₀, hr⟩ := processAll_mem_outcome env a pres fs sup p r hpr
  rw [hr, onAdd_no_remove env a pres s₀ p q]
  simp

theorem uuidRender_length (k : Nat) : (uuidRender k).length = k + 1 := by
  simp [uuidRender, String.length]

theorem uuidRender_injective (m n : Nat) (h : uuidRender m = uuidRender n) :
    m = n := by
  have := congrArg String.length h
  rw [uuidRender_length, uuidRender_length] at this
  omega

theorem destPath_length (env : HandlerEnv) (a : String) (k : Nat) (p : String) :
    (destPath env a (uuidRender k) p).length =
      a.length + "/".length + "files".length + "/".length + (k + 1) +
        ".".length + (jsExtTemplate (computedExtension env p)).length := by
  simp only [destPath, jsResolve, String.length_append, uuidRender_length]

theorem destPath_ne (env : HandlerEnv) (a : String) (k₁ k₂ : Nat) (p : String)
    (h : k₁ ≠ k₂) :
    destPath env a (uuidRender k₁) p ≠ destPath env a (uuidRender k₂) p := by
  intro heq
  have := congrArg String.length heq
  rw [destPath_length, destPath_length] at this
  omega

theorem ignoredAux_start (c : Char) (cs : List Char) (hc : jsDotMatches c = true) :
    ignoredAux true ('.' :: c :: cs) = true := by
  simp [ignoredAux, hc]

theorem ignoredAux_append (s : Char) (hs : isSep s = true) (c : Char)
    (hc : jsDotMatches c = true) (cs : List Char) :
    ∀ (l₁ : List Char) (b : Bool), ignoredAux b (l₁ ++ s :: '.' :: c :: cs) = true := by
  intro l₁
  induction l₁ with
  | nil =>
      intro b
      simp [ignoredAux, hs, hc]
  | cons x xs ih =>
      intro b
      simp [ignoredAux, ih]

theorem dropWhile_head_false (p : Char → Bool) :
    ∀ (l : List Char) (x : Char) (xs : List Char),
      l.dropWhile p = x :: xs → p x = false := by
  intro l
  induction l with
  | nil => intro x xs h; simp [List.dropWhile] at h
  | cons c rest ih =>
      intro x xs h
      rw [List.dropWhile_cons] at h
      by_cases hp : p c = true
      · rw [if_pos hp] at h
        exact ih _ _ h
      · rw [if_neg hp] at h
        cases h
        exact Bool.eq_false_iff.mpr hp

theorem basename_decomp (l : List Char) :
    basenameList l = l ∨
    ∃ l₁ s, isSep s = true ∧ l = l₁ ++ s :: basenameList l := by
  have hsplit : (l.reverse.takeWhile (fun c => !isSep c)) ++
      (l.reverse.dropWhile (fun c => !isSep c)) = l.reverse :=
    List.takeWhile_append_dropWhile (fun c => !isSep c) l.reverse
  cases hd : l.reverse.dropWhile (fun c => !isSep c) with
  | nil =>
      left
      rw [hd, List.append_nil] at hsplit
      simp [basenameList, hsplit]
  | cons s tl =>
      right
      have hps : (fun c => !isSep c) s = false := dropWhile_head_false _ _ _ _ hd
      have hs : isSep s = true := by simpa using hps
      refine ⟨tl.reverse, s, hs, ?_⟩
      conv_lhs => rw [← List.reverse_reverse l, ← hsplit, hd]
      simp [basenameList, List.reverse_append, List.append_assoc]

theorem ignoredMatch_of_basename (p : String) (c : Char) (cs : List Char)
    (hbase : (jsBasename p).data = '.' :: c :: cs) (hc : jsDotMatches c = true) :
    ignoredMatch p = true := by
  have hbl : basenameList p.data = '.' :: c :: cs := hbase
  rcases basename_decomp p.data with h | ⟨l₁, s, hs, h⟩
  · have hp : p.data = '.' :: c :: cs := by rw [← h, hbl]
    unfold ignoredMatch
    rw [hp]
    exact ignoredAux_start c cs hc
  · rw [hbl] at h
    unfold ignoredMatch
    rw [h]
    exact ignoredAux_append s hs c hc cs l₁ true

/-! The claims. -/

/-- C1, counterexample: on a file whose stat and copy both succeed, the
handler performs the copy to the destination, yet its filesystem operations
contain no removal of the original — contradicting the claim that the original
file at the watched path is deleted (the `fs.rmSync(filePath)` line of the
source is commented out). -/
theorem c1_counterexample :
    (onAdd envOk "/app" false 0 "/watch/a.txt").2 =
      Except.ok (mkRecord envOk "/app" false 0 "/watch/a.txt" ⟨100, 11, 12, 13⟩,
        [FsOp.copy "/watch/a.txt" (destPath envOk "/app" (uuidRender 0) "/watch/a.txt")]) ∧
    outcomeRemoves "/watch/a.txt" (onAdd envOk "/app" false 0 "/watch/a.txt").2 = false := by
  exact ⟨rfl, rfl⟩

/-- C1, amended: for every watcher event the handler completes on, its only
filesystem operation is the copy of the original bytes to the destination path
of the produced record; the original file is never deleted (no remove operation
is ever performed, before or after the copy). -/
theorem c1_amended (env : HandlerEnv) (a : String) (pres : Bool) (sup : Nat)
    (f : String) (s' : Nat) (m : FileModel) (ops : List FsOp)
    (h : onAdd env a pres sup f = (s', Except.ok (m, ops))) :
    ops = [FsOp.copy f m.path] ∧ ∀ q, FsOp.remove q ∉ ops := by
  obtain ⟨-, st, -, -, hm, hops⟩ := onAdd_ok env a pres sup f s' m ops h
  constructor
  · rw [hops, hm]
    simp [mkRecord]
  · intro q
    rw [hops]
    simp

/-- Witness for the amended C1 at a concrete successful event. -/
theorem c1_witness :
    (onAdd envOk "/app" false 0 "/watch/a.txt" =
      ((1 : Nat), Except.ok (mkRecord envOk "/app" false 0 "/watch/a.txt" ⟨100, 11, 12, 13⟩,
        [FsOp.copy "/watch/a.txt" (destPath envOk "/app" (uuidRender 0) "/watch/a.txt")]))) ∧
    ([FsOp.copy "/watch/a.txt" (destPath envOk "/app" (uuidRender 0) "/watch/a.txt")] =
       [FsOp.copy "/watch/a.txt"
         (mkRecord envOk "/app" false 0 "/watch/a.txt" ⟨100, 11, 12, 13⟩).path] ∧
     ∀ q, FsOp.remove q ∉
       [FsOp.copy "/watch/a.txt" (destPath envOk "/app" (uuidRender 0) "/watch/a.txt")]) :=
  ⟨rfl, c1_amended envOk "/app" false 0 "/watch/a.txt" 1
    (mkRecord envOk "/app" false 0 "/watch/a.txt" ⟨100, 11, 12, 13⟩)
    [FsOp.copy "/watch/a.txt" (destPath envOk "/app" (uuidRender 0) "/watch/a.txt")] rfl⟩

/-- C2: the claim that stat or copy failures do not propagate out of the
`add` handler fails on the code.  Evaluating the handler where `fs.statSync`
throws, the exception escapes the handler (the `if (!fileStat)` guard is dead:
a failing `statSync` throws instead of returning a falsy value); likewise a
`fs.copyFileSync` throw escapes, as the handler has no try/catch. -/
theorem c2_thm :
    onAdd envStatThrows "/app" false 0 "/watch/gone.txt" = (0, Except.error "ENOENT") ∧
    (onAdd envCopyThrows "/app" false 0 "/watch/a.txt").2 = Except.error "copyFileSync" := by
  exact ⟨rfl, rfl⟩

/-- C3: the claim that the armed timer period equals the interval of the newly
emitted configuration fails on the code.  The subscription arms the timer with
`appEnv.ingest.interval` from the startup settings snapshot: with a snapshot
interval of 1000 and an emission interval of 2000, the armed period is 1000. -/
theorem c3_thm :
    (subscribe appEnvEx (some cfgEx) st0).autoScanInterval = some appEnvEx.ingest.interval ∧
    appEnvEx.ingest.interval = 1000 ∧ cfgEx.interval = 2000 ∧
    (subscribe appEnvEx (some cfgEx) st0).autoScanInterval ≠ some cfgEx.interval := by
  refine ⟨by decide, rfl, rfl, by decide⟩

/-- C4: when the send to the UI sink throws on a delivery tick, the queue is
left exactly as it was (and nothing is recorded as sent), so the same records
are resubmitted on the next tick. -/
theorem c4_thm (autoscan : Bool) (q : List FileModel) :
    tick false autoscan q = (none, q) := by
  unfold tick
  split
  · simp
  · rfl

/-- C5: on a delivery tick, if autoscan is disabled or the queue is empty,
nothing is sent and the queue is unchanged; otherwise (send succeeding) every
queued record is wrapped in an envelope with the success branch set and error
undefined, the whole batch is handed to the sink as one message, and the queue
is cleared. -/
theorem c5_thm (sendOk autoscan : Bool) (q : List FileModel) :
    ((autoscan = false ∨ q = []) → tick sendOk autoscan q = (none, q)) ∧
    (autoscan = true → q ≠ [] → tick true autoscan q = (some (q.map wrapRecord), [])) := by
  constructor
  · rintro (h | h) <;> subst h <;> unfold tick
    · rw [if_neg (by simp)]
    · rw [if_neg (by simp)]
  · intro ha hq
    subst ha
    unfold tick
    rw [if_pos ⟨List.length_pos.mpr hq, rfl⟩]
    simp

/-- Witness for C5: a disabled tick leaves the singleton queue untouched; an
enabled successful tick sends the wrapped singleton and clears the queue. -/
theorem c5_witness :
    tick true false [sampleRecord] = (none, [sampleRecord]) ∧
    tick true true [sampleRecord] = (some [wrapRecord sampleRecord], []) :=
  ⟨(c5_thm true false [sampleRecord]).1 (Or.inl rfl),
   (c5_thm true true [sampleRecord]).2 rfl (by simp)⟩

/-- C6: the claim that all three timestamp fields are strings fails on the
code when `preserveTimestamps` is true.  Evaluating the handler on a stat with
atime 11, mtime 12, ctime 13 and preservation on: the record does carry the
original OS-reported stat values, but as `Date` objects, not strings (the
`FileModel` declaration says `string`, so the code contradicts its own type). -/
theorem c6_thm :
    (onAdd envOk "/app" true 0 "/watch/a.txt").2 =
      Except.ok (mkRecord envOk "/app" true 0 "/watch/a.txt" ⟨100, 11, 12, 13⟩,
        [FsOp.copy "/watch/a.txt" (destPath envOk "/app" (uuidRender 0) "/watch/a.txt")]) ∧
    (mkRecord envOk "/app" true 0 "/watch/a.txt" ⟨100, 11, 12, 13⟩).accessTime =
      JsTimeVal.dateObj 11 ∧
    (mkRecord envOk "/app" true 0 "/watch/a.txt" ⟨100, 11, 12, 13⟩).creationTime =
      JsTimeVal.dateObj 13 ∧
    (mkRecord envOk "/app" true 0 "/watch/a.txt" ⟨100, 11, 12, 13⟩).modificationTime =
      JsTimeVal.dateObj 12 ∧
    JsTimeVal.isString
      ((mkRecord envOk "/app" true 0 "/watch/a.txt" ⟨100, 11, 12, 13⟩).accessTime) = false := by
  exact ⟨rfl, rfl, rfl, rfl, rfl⟩

/-- C7, counterexample: on a file whose MIME lookup resolves nothing, the
`type` field of the delivered record is the boolean `false` — neither a MIME string
nor `undefined`, contradicting the claimed shape `string | undefined`. -/
theorem c7_counterexample :
    (onAdd envNoMime "/app" false 0 "/watch/afile").2 =
      Except.ok (mkRecord envNoMime "/app" false 0 "/watch/afile" ⟨100, 11, 12, 13⟩,
        [FsOp.copy "/watch/afile" (destPath envNoMime "/app" (uuidRender 0) "/watch/afile")]) ∧
    (mkRecord envNoMime "/app" false 0 "/watch/afile" ⟨100, 11, 12, 13⟩).type =
      JsTypeVal.boolFalse ∧
    ¬ typeIsStringOrUndefined
        (mkRecord envNoMime "/app" false 0 "/watch/afile" ⟨100, 11, 12, 13⟩).type := by
  refine ⟨rfl, rfl, ?_⟩
  rintro (h | ⟨s, h⟩)
  · exact absurd h (by decide)
  · rw [show (mkRecord envNoMime "/app" false 0 "/watch/afile" ⟨100, 11, 12, 13⟩).type =
        JsTypeVal.boolFalse from rfl] at h
    exact JsTypeVal.noConfusion h

/-- C7, amended: for every record the handler produces, the `type` field is
the string from the MIME lookup when the lookup resolves, and the boolean `false`
when it does not; it is never `undefined` and never any other kind of value. -/
theorem c7_amended (env : HandlerEnv) (a : String) (pres : Bool) (sup : Nat)
    (f : String) (s' : Nat) (m : FileModel) (ops : List FsOp)
    (h : onAdd env a pres sup f = (s', Except.ok (m, ops))) :
    (∃ s, env.mimeLookup f = some s ∧ m.type = JsTypeVal.str s) ∨
    (env.mimeLookup f = none ∧ m.type = JsTypeVal.boolFalse) := by
  obtain ⟨-, st, -, -, hm, -⟩ := onAdd_ok env a pres sup f s' m ops h
  subst hm
  cases hl : env.mimeLookup f with
  | none => exact Or.inr ⟨rfl, by simp [mkRecord, hl]⟩
  | some s => exact Or.inl ⟨s, rfl, by simp [mkRecord, hl]⟩

/-- Witness for the amended C7 at a concrete successful event. -/
theorem c7_witness :
    (onAdd envOk "/app" false 0 "/watch/a.txt" =
      ((1 : Nat), Except.ok (mkRecord envOk "/app" false 0 "/watch/a.txt" ⟨100, 11, 12, 13⟩,
        [FsOp.copy "/watch/a.txt" (destPath envOk "/app" (uuidRender 0) "/watch/a.txt")]))) ∧
    ((∃ s, envOk.mimeLookup "/watch/a.txt" = some s ∧
        (mkRecord envOk "/app" false 0 "/watch/a.txt" ⟨100, 11, 12, 13⟩).type =
          JsTypeVal.str s) ∨
     (envOk.mimeLookup "/watch/a.txt" = none ∧
        (mkRecord envOk "/app" false 0 "/watch/a.txt" ⟨100, 11, 12, 13⟩).type =
          JsTypeVal.boolFalse)) :=
  ⟨rfl, c7_amended envOk "/app" false 0 "/watch/a.txt" 1
    (mkRecord envOk "/app" false 0 "/watch/a.txt" ⟨100, 11, 12, 13⟩)
    [FsOp.copy "/watch/a.txt" (destPath envOk "/app" (uuidRender 0) "/watch/a.txt")] rfl⟩

/-- C8, counterexample: a file whose base name begins with a dot can still be
handled.  The base name of `/watch/.\na` begins with a dot, yet the `ignored`
regex does not match it (the regex `.` after the literal dot does not match a
line terminator such as `\n`), so the path survives the event filter and the
pipeline produces a record for it — contradicting the claim that no event is
ever handled and no record ever produced for any dot-named file. -/
theorem c8_counterexample :
    (jsBasename "/watch/.\na").data = '.' :: '\n' :: ['a'] ∧
    ignoredMatch "/watch/.\na" = false ∧
    "/watch/.\na" ∈ watcherEvents ["/watch/.\na"] ∧
    ("/watch/.\na",
      Except.ok (mkRecord envOk "/app" false 0 "/watch/.\na" ⟨100, 11, 12, 13⟩,
        [FsOp.copy "/watch/.\na" (destPath envOk "/app" (uuidRender 0) "/watch/.\na")])) ∈
      (processAll envOk "/app" false 0 (watcherEvents ["/watch/.\na"])).2 := by
  refine ⟨by decide, by decide, by decide, ?_⟩
  exact List.mem_cons_self _ _

/-- C8, amended: for every file whose base name begins with a dot followed by
a character other than a line terminator (`\n`, `\r`, U+2028, U+2029), the
chokidar `ignored` pattern matches, so no `add` event is handled for it and no
record is ever produced for it by the pipeline.  (A dot followed by a line
terminator defeats the pattern, as the regex `.` excludes line terminators.) -/
theorem c8_thm (env : HandlerEnv) (appPath : String) (pres : Bool) (sup : Nat)
    (dirFiles : List String) (p : String) (c : Char) (cs : List Char)
    (hbase : (jsBasename p).data = '.' :: c :: cs) (hc : jsDotMatches c = true) :
    p ∉ watcherEvents dirFiles ∧
    ∀ r, (p, r) ∉ (processAll env appPath pres sup (watcherEvents dirFiles)).2 := by
  have hig : ignoredMatch p = true := ignoredMatch_of_basename p c cs hbase hc
  have hout : p ∉ watcherEvents dirFiles := by
    intro hmem
    have h2 := (List.mem_filter.mp hmem).2
    rw [hig] at h2
    simp at h2
  refine ⟨hout, ?_⟩
  intro r hmem
  exact hout (processAll_mem_outcome env appPath pres _ sup p r hmem).1

/-- Witness for C8: the dotfile `/watch/.hidden` is filtered out of the
events and never paired with any outcome. -/
theorem c8_witness :
    ((jsBasename "/watch/.hidden").data = '.' :: 'h' :: ['i', 'd', 'd', 'e', 'n'] ∧
     jsDotMatches 'h' = true) ∧
    ("/watch/.hidden" ∉ watcherEvents ["/watch/.hidden", "/watch/ok.txt"] ∧
     ∀ r, ("/watch/.hidden", r) ∉
       (processAll envOk "/app" false 0
         (watcherEvents ["/watch/.hidden", "/watch/ok.txt"])).2) :=
  ⟨⟨by decide, by decide⟩,
   c8_thm envOk "/app" false 0 ["/watch/.hidden", "/watch/ok.txt"] "/watch/.hidden" 'h'
     ['i', 'd', 'd', 'e', 'n'] (by decide) (by decide)⟩

/-- C9: a configuration emission that re-enables autoscan rebinds the watcher
with `ignoreInitial: false`; since the handler never removes the original file,
a file still present in the watched directory is re-detected by the rebound
initial scan of the rebound watcher, and the second ingestion of the same source file
produces a record with a fresh identifier and a distinct destination path. -/
theorem c9_thm (env : HandlerEnv) (appEnv : AppEnv) (cfg : IngestConfig)
    (st : IngestState) (pres : Bool) (dirFiles : List String) (p : String)
    (st₀ : FileStat)
    (hcfg₁ : cfg.autoscan = true) (hcfg₂ : cfg.autoscanLocation ≠ "")
    (hmem : p ∈ dirFiles) (hig : ignoredMatch p = false)
    (hstat : env.stat p = Except.ok st₀) (hcopy : ∀ d, env.copyOk p d = true) :
    (subscribe appEnv (some cfg) st).ingestWatcher =
      some { watchPath := cfg.autoscanLocation, ignoreInitial := false } ∧
    dirAfter dirFiles (processAll env appEnv.appPath pres 0 (watcherEvents dirFiles)).2 =
      dirFiles ∧
    ∃ k₁ k₂,
      (p, Except.ok (mkRecord env appEnv.appPath pres k₁ p st₀,
            [FsOp.copy p (destPath env appEnv.appPath (uuidRender k₁) p)])) ∈
          (processAll env appEnv.appPath pres 0 (watcherEvents dirFiles)).2 ∧
      (p, Except.ok (mkRecord env appEnv.appPath pres k₂ p st₀,
            [FsOp.copy p (destPath env appEnv.appPath (uuidRender k₂) p)])) ∈
          (processAll env appEnv.appPath pres
             (processAll env appEnv.appPath pres 0 (watcherEvents dirFiles)).1
             (watcherEvents dirFiles)).2 ∧
      (mkRecord env appEnv.appPath pres k₁ p st₀).id ≠
        (mkRecord env appEnv.appPath pres k₂ p st₀).id ∧
      (mkRecord env appEnv.appPath pres k₁ p st₀).path ≠
        (mkRecord env appEnv.appPath pres k₂ p st₀).path := by
  have hpev : p ∈ watcherEvents dirFiles :=
    List.mem_filter.mpr ⟨hmem, by rw [hig]; rfl⟩
  obtain ⟨k₁, -, hk₁lt, hmem₁⟩ :=
    processAll_mem_ok env appEnv.appPath pres p st₀ hstat hcopy (watcherEvents dirFiles) 0 hpev
  obtain ⟨k₂, hk₂ge, -, hmem₂⟩ :=
    processAll_mem_ok env appEnv.appPath pres p st₀ hstat hcopy (watcherEvents dirFiles)
      (processAll env appEnv.appPath pres 0 (watcherEvents dirFiles)).1 hpev
  have hkne : k₁ ≠ k₂ := by omega
  refine ⟨?_, dirAfter_processAll env appEnv.appPath pres dirFiles _ 0,
    k₁, k₂, hmem₁, hmem₂, ?_, ?_⟩
  · simp [subscribe, hcfg₁, hcfg₂]
  · intro hid
    apply hkne
    apply uuidRender_injective
    simpa [mkRecord, UuidModel.mk.injEq] using hid
  · intro hp
    exact destPath_ne env appEnv.appPath k₁ k₂ p hkne (by simpa [mkRecord] using hp)

/-- Witness for C9: one file in the watched directory, ingested by two
successive enabling emissions. -/
theorem c9_witness :
    (cfgEx.autoscan = true ∧ cfgEx.autoscanLocation ≠ "" ∧
     "/watch/a.txt" ∈ ["/watch/a.txt"] ∧ ignoredMatch "/watch/a.txt" = false ∧
     envOk.stat "/watch/a.txt" = Except.ok ⟨100, 11, 12, 13⟩ ∧
     (∀ d, envOk.copyOk "/watch/a.txt" d = true)) ∧
    ((subscribe appEnvEx (some cfgEx) st0).ingestWatcher =
      some { watchPath := cfgEx.autoscanLocation, ignoreInitial := false } ∧
    dirAfter ["/watch/a.txt"]
        (processAll envOk appEnvEx.appPath false 0 (watcherEvents ["/watch/a.txt"])).2 =
      ["/watch/a.txt"] ∧
    ∃ k₁ k₂,
      ("/watch/a.txt", Except.ok (mkRecord envOk appEnvEx.appPath false k₁ "/watch/a.txt" ⟨100, 11, 12, 13⟩,
            [FsOp.copy "/watch/a.txt" (destPath envOk appEnvEx.appPath (uuidRender k₁) "/watch/a.txt")])) ∈
          (processAll envOk appEnvEx.appPath false 0 (watcherEvents ["/watch/a.txt"])).2 ∧
      ("/watch/a.txt", Except.ok (mkRecord envOk appEnvEx.appPath false k₂ "/watch/a.txt" ⟨100, 11, 12, 13⟩,
            [FsOp.copy "/watch/a.txt" (destPath envOk appEnvEx.appPath (uuidRender k₂) "/watch/a.txt")])) ∈
          (processAll envOk appEnvEx.appPath false
             (processAll envOk appEnvEx.appPath false 0 (watcherEvents ["/watch/a.txt"])).1
             (watcherEvents ["/watch/a.txt"])).2 ∧
      (mkRecord envOk appEnvEx.appPath false k₁ "/watch/a.txt" ⟨100, 11, 12, 13⟩).id ≠
        (mkRecord envOk appEnvEx.appPath false k₂ "/watch/a.txt" ⟨100, 11, 12, 13⟩).id ∧
      (mkRecord envOk appEnvEx.appPath false k₁ "/watch/a.txt" ⟨100, 11, 12, 13⟩).path ≠
        (mkRecord envOk appEnvEx.appPath false k₂ "/watch/a.txt" ⟨100, 11, 12, 13⟩).path) :=
  ⟨⟨rfl, by decide, by decide, by decide, rfl, fun d => rfl⟩,
   c9_thm envOk appEnvEx cfgEx st0 false ["/watch/a.txt"] "/watch/a.txt" ⟨100, 11, 12, 13⟩
     rfl (by decide) (by decide) (by decide) rfl (fun d => rfl)⟩

/-- C10: when the MIME lookup yields no resolvable extension and the original
path has no dot suffix of its own, the computed destination path ends with the
literal characters ".undefined" (the template literal stringifies the
`undefined` fallback), rather than gaining no suffix. -/
theorem c10_thm (env : HandlerEnv) (appPath newId filePath : String)
    (hmime : mimeExtOf env filePath = none)
    (hext : jsExtname filePath = "") :
    ∃ pre, destPath env appPath newId filePath = pre ++ ".undefined" := by
  refine ⟨jsResolve appPath "files" newId, ?_⟩
  have hfb : fallbackExt filePath = JsExtVal.undefined := by
    unfold fallbackExt
    rw [hext]
    rfl
  have hce : computedExtension env filePath = JsExtVal.undefined := by
    unfold computedExtension
    rw [hmime, hfb]
  unfold destPath
  rw [hce]
  rw [String.append_assoc]
  rfl

/-- Witness for C10: an extensionless file with an unresolvable MIME type is
relocated to a destination ending in ".undefined". -/
theorem c10_witness :
    (mimeExtOf envNoMime "/watch/afile" = none ∧ jsExtname "/watch/afile" = "") ∧
    ∃ pre, destPath envNoMime "/app" "u" "/watch/afile" = pre ++ ".undefined" :=
  ⟨⟨rfl, by decide⟩, c10_thm envNoMime "/app" "u" "/watch/afile" rfl (by decide)⟩

end Ingest
